import Mathlib

/-!
Verification of the pdf2vector core against its specification.

Strings are modelled as lists of characters (`Str`).  The regular-expression
substitutions and splits of `pdf2vector/core/chunking.py` are embedded as
executable scanning functions that follow Python `re` semantics
(leftmost match, greedy or lazy quantifiers with backtracking, scanning
resumes after each match).  Functions that skip past a matched region use an
explicit fuel argument (initialised to the string length, which each step of
the scan strictly exceeds the consumption of) so that every definition is
structurally recursive and kernel-evaluable.
-/

namespace Pdf2Vector

abbrev Str := List Char

/-- Python `\s` over the ASCII range: space, tab, newline, carriage return,
vertical tab and form feed. -/
def pyIsSpace (c : Char) : Bool :=
  c = ' ' || c = '\t' || c = '\n' || c = '\r' || c = Char.ofNat 11 || c = Char.ofNat 12

/-- Python `str.strip()`: drop whitespace from both ends. -/
def pyStrip (s : Str) : Str :=
  ((s.dropWhile pyIsSpace).reverse.dropWhile pyIsSpace).reverse

/-- The backtick character, used by the code-fence pattern. -/
def backtickChar : Char := Char.ofNat 96

/-- Matches `\s*\n` at the start of the string with greedy backtracking:
consumes through the last newline of the maximal leading whitespace run and
returns the remainder; fails when the leading whitespace run holds no
newline. -/
def lastNlInWsRun : Str → Option Str
  | [] => none
  | c :: rest =>
    if pyIsSpace c then
      match lastNlInWsRun rest with
      | some r => some r
      | none => if c = '\n' then some rest else none
    else none

/-- Matches the page-number pattern `\n\s*\d+\s*\n` of `clean_text`
(chunking.py line 42) at the start of the string, returning the remainder
after the match. -/
def pnMatch : Str → Option Str
  | '\n' :: rest =>
    let s1 := rest.dropWhile pyIsSpace
    match s1 with
    | c :: _ => if c.isDigit then lastNlInWsRun (s1.dropWhile Char.isDigit) else none
    | [] => none
  | _ => none

/-- Scanning pass of `re.sub(r'\n\s*\d+\s*\n', '\n', text)`: each match is
replaced by a single newline and scanning resumes after the match. -/
def removePageNumsAux : Nat → Str → Str
  | _, [] => []
  | 0, s => s
  | fuel + 1, c :: rest =>
    match pnMatch (c :: rest) with
    | some rem => '\n' :: removePageNumsAux fuel rem
    | none => c :: removePageNumsAux fuel rest

def removePageNums (s : Str) : Str := removePageNumsAux s.length s

/-- Lazy scan for the closing fence of ```` ```[\s\S]*?``` ````: consumes the
minimal run of characters up to and including the next triple backtick. -/
def fenceClose : Str → Option Str
  | c1 :: c2 :: c3 :: rest =>
    if c1 = backtickChar && c2 = backtickChar && c3 = backtickChar then some rest
    else fenceClose (c2 :: c3 :: rest)
  | _ => none

/-- Scanning pass of `re.sub(r'```[\s\S]*?```', '', text)` (chunking.py
line 45). -/
def removeFencesAux : Nat → Str → Str
  | _, [] => []
  | 0, s => s
  | fuel + 1, c :: rest =>
    match rest with
    | c2 :: c3 :: rest2 =>
      if c = backtickChar && c2 = backtickChar && c3 = backtickChar then
        match fenceClose rest2 with
        | some rem => removeFencesAux fuel rem
        | none => c :: removeFencesAux fuel rest
      else c :: removeFencesAux fuel rest
    | _ => c :: removeFencesAux fuel rest

def removeFences (s : Str) : Str := removeFencesAux s.length s

/-- Lazy scan of `.*?\)`: consumes up to and including the first `)`;
fails at a newline (`.` does not match newlines) or at end of input. -/
def scanParen : Str → Option Str
  | [] => none
  | c :: rest => if c = ')' then some rest else if c = '\n' then none else scanParen rest

/-- Matches `.*?\]\(.*?\)` at the start of the string, with backtracking over
the choice of `]` when the parenthesised part fails. -/
def imgBody : Str → Option Str
  | [] => none
  | c :: rest =>
    if c = ']' then
      match rest with
      | '(' :: r2 =>
        match scanParen r2 with
        | some r3 => some r3
        | none => imgBody rest
      | _ => imgBody rest
    else if c = '\n' then none
    else imgBody rest

/-- Scanning pass of `re.sub(r'!\[.*?\]\(.*?\)', '', text)` (chunking.py
line 48). -/
def removeImagesAux : Nat → Str → Str
  | _, [] => []
  | 0, s => s
  | fuel + 1, c :: rest =>
    match rest with
    | '[' :: r2 =>
      if c = '!' then
        match imgBody r2 with
        | some rem => removeImagesAux fuel rem
        | none => c :: removeImagesAux fuel rest
      else c :: removeImagesAux fuel rest
    | _ => c :: removeImagesAux fuel rest

def removeImages (s : Str) : Str := removeImagesAux s.length s

/-- Character class of the URL pattern of chunking.py line 51:
`[a-zA-Z]`, `[0-9]`, `[$-_@.&+]` (a codepoint range from `$` to `_`, which
already holds `@ . & +`) and `[!*\\(\\),]`.  The `%XX` alternative of the
source pattern is unreachable because `%` lies in the `$-_` range and the
single-character class is tried first at every repetition. -/
def urlChar (c : Char) : Bool :=
  c.isAlpha || c.isDigit || ('$' ≤ c && c ≤ '_') ||
    c = '!' || c = '*' || c = '\\' || c = '(' || c = ')' || c = ','

/-- Matches `://` followed by one or more `urlChar` (greedy), returning the
remainder. -/
def schemeRest : Str → Option Str
  | ':' :: '/' :: '/' :: rest =>
    if (rest.takeWhile urlChar).isEmpty then none else some (rest.dropWhile urlChar)
  | _ => none

/-- Matches the URL pattern `http[s]?://(...)+` at the start of the string;
the optional `s` is tried greedily first, with backtracking. -/
def urlMatch : Str → Option Str
  | 'h' :: 't' :: 't' :: 'p' :: rest =>
    (match rest with
     | 's' :: rest2 => (schemeRest rest2).orElse (fun _ => schemeRest rest)
     | _ => schemeRest rest)
  | _ => none

/-- Scanning pass of the URL removal `re.sub` of chunking.py line 51. -/
def removeURLsAux : Nat → Str → Str
  | _, [] => []
  | 0, s => s
  | fuel + 1, c :: rest =>
    match urlMatch (c :: rest) with
    | some rem => removeURLsAux fuel rem
    | none => c :: removeURLsAux fuel rest

def removeURLs (s : Str) : Str := removeURLsAux s.length s

/-- The pass `re.sub(r'\s+', ' ', text)` (chunking.py line 54): every maximal
whitespace run becomes a single space.  The flag records whether the scanner
is inside a run whose replacement space was already emitted. -/
def collapseWsAux : Bool → Str → Str
  | _, [] => []
  | inRun, c :: rest =>
    if pyIsSpace c then
      if inRun then collapseWsAux true rest
      else ' ' :: collapseWsAux true rest
    else c :: collapseWsAux false rest

def collapseWs (s : Str) : Str := collapseWsAux false s

/-- `MarkdownChunker.clean_text` (chunking.py lines 31-57): page numbers,
code fences, image references and URLs are removed in that order, whitespace
is collapsed and the ends are stripped. -/
def clean_text (s : Str) : Str :=
  pyStrip (collapseWs (removeURLs (removeImages (removeFences (removePageNums s)))))

/-- Continuation of the heading pattern after its first hash: zero or more
further hash marks, then one whitespace character. -/
def hashTail : Str → Bool
  | [] => false
  | c :: rest => if c = '#' then hashTail rest else pyIsSpace c

/-- Recognises `#+\s` at the start of a string, the heading lookahead of
chunking.py line 70. -/
def isHeadingStart : Str → Bool
  | '#' :: rest => hashTail rest
  | _ => false

/-- Pieces of `re.split(r'(?=^#+\s)', text, flags=re.MULTILINE)` after the
start of the string: a zero-width split point sits at every position that
follows a newline and begins a heading. -/
def splitHeadAux : Str → Str → List Str
  | acc, [] => [acc.reverse]
  | acc, c :: rest =>
    if c = '\n' && isHeadingStart rest then
      (acc.reverse ++ ['\n']) :: splitHeadAux [] rest
    else splitHeadAux (c :: acc) rest

/-- `MarkdownChunker.split_by_headings` (chunking.py lines 59-71): split
before every line beginning with `#+\s`, strip each piece and drop the empty
ones.  A match at position 0 contributes an empty leading piece, exactly as
`re.split` does with a zero-width pattern. -/
def split_by_headings (s : Str) : List Str :=
  let pieces := if isHeadingStart s then [] :: splitHeadAux [] s else splitHeadAux [] s
  (pieces.map pyStrip).filter (fun c => !c.isEmpty)

/-- Pieces of `re.split(r'\n\s*\n', text)`: a separator is a newline whose
following whitespace run holds another newline; the separator consumes
through the last newline of that run (greedy `\s*` with backtracking). -/
def splitParaAux : Nat → Str → Str → List Str
  | _, acc, [] => [acc.reverse]
  | 0, acc, s => [acc.reverse ++ s]
  | fuel + 1, acc, c :: rest =>
    if c = '\n' then
      match lastNlInWsRun rest with
      | some rem => acc.reverse :: splitParaAux fuel [] rem
      | none => splitParaAux fuel ('\n' :: acc) rest
    else splitParaAux fuel (c :: acc) rest

/-- `MarkdownChunker.split_by_paragraphs` (chunking.py lines 73-85). -/
def split_by_paragraphs (s : Str) : List Str :=
  ((splitParaAux s.length [] s).map pyStrip).filter (fun c => !c.isEmpty)

/-- Loop of `MarkdownChunker.merge_small_chunks` (chunking.py lines 87-111):
greedy accumulation into `current`, flushing when the next chunk would push
past `maxSize`; the final buffer is flushed when non-empty. -/
def mergeSmallAux (maxSize : Nat) : Str → List Str → List Str
  | current, [] => if current.isEmpty then [] else [current]
  | current, c :: cs =>
    if current.length + c.length ≤ maxSize then
      mergeSmallAux maxSize (if current.isEmpty then c else current ++ '\n' :: '\n' :: c) cs
    else if current.isEmpty then mergeSmallAux maxSize c cs
    else current :: mergeSmallAux maxSize c cs

def merge_small_chunks (maxSize : Nat) (chunks : List Str) : List Str :=
  mergeSmallAux maxSize [] chunks

/-- The `Chunk` dataclass of chunking.py: text plus metadata.  The base
metadata passed by the caller is kept generic; `chunk_index` and
`chunk_size` are the keys `chunk_text` adds to it. -/
structure Chunk (M : Type) where
  text : Str
  base : M
  chunk_index : Nat
  chunk_size : Nat
deriving DecidableEq, Repr

/-- Wrapping of the surviving fragments into `Chunk` records with their
position and character length (chunking.py lines 138-148). -/
def attachMeta {M : Type} (m : M) (cs : List Str) : List (Chunk M) :=
  cs.enum.map (fun p => ⟨p.2, m, p.1, p.2.length⟩)

/-- `MarkdownChunker.chunk_text` (chunking.py lines 113-148): clean, split by
headings, fall back to paragraphs when any heading fragment is under
`minSize`, merge, and attach metadata. -/
def chunk_text {M : Type} (minSize maxSize : Nat) (text : Str) (m : M) : List (Chunk M) :=
  attachMeta m (merge_small_chunks maxSize
    (if (split_by_headings (clean_text text)).any (fun c => c.length < minSize)
     then split_by_paragraphs (clean_text text)
     else split_by_headings (clean_text text)))

/-! Vector store (`pdf2vector/core/vector_store.py`).  The ChromaDB
collection itself is an external library, so its keyed-store semantics are
modelled from the spec; the id derivation, the upsert loop and the result
formatting are translated from the source. -/

/-- Metadata the ingestion caller attaches to every chunk; `_generate_id`
reads its `filename` key (vector_store.py line 65). -/
structure ChunkMeta where
  filename : Str
deriving DecidableEq, Repr

/-- `ChromaDBStore._generate_id` (vector_store.py lines 55-66): the id is the
SHA-256 digest of `text ++ filename ++ chunk_index`.  The digest function is
kept abstract as the `hash` argument; the claims use only that it is a
function of that content string. -/
def generate_id (hash : Str → Str) (c : Chunk ChunkMeta) : Str :=
  hash (c.text ++ c.base.filename ++ (toString c.chunk_index).data)

/-- One stored tuple: document text, the metadata dict written by
`chunk_text` (filename, chunk_index and chunk_size) and the embedding
vector, whose numeric type is kept generic. -/
structure StoreRecord (V : Type) where
  document : Str
  filename : Str
  chunk_index : Nat
  chunk_size : Nat
  embedding : V
deriving DecidableEq, Repr

def mkRecord {V : Type} (c : Chunk ChunkMeta) (v : V) : StoreRecord V :=
  ⟨c.text, c.base.filename, c.chunk_index, c.chunk_size, v⟩

/-- Modelled from the spec: one id-addressed write of the ChromaDB
collection, which is external to src/ — "Upsert: insert-or-overwrite by
identifier", "last-write-wins on id collision". -/
def collection_upsert_one {V : Type} (col : List (Str × StoreRecord V)) (id : Str)
    (r : StoreRecord V) : List (Str × StoreRecord V) :=
  if col.any (fun p => p.1 = id) then col.map (fun p => if p.1 = id then (id, r) else p)
  else col ++ [(id, r)]

/-- Modelled from the spec: the bulk `collection.upsert` call of
vector_store.py line 92 writes each (id, record) pair in order. -/
def collection_upsert {V : Type} (col : List (Str × StoreRecord V))
    (entries : List (Str × StoreRecord V)) : List (Str × StoreRecord V) :=
  entries.foldl (fun acc p => collection_upsert_one acc p.1 p.2) col

/-- Loop of `ChromaDBStore.upsert` (vector_store.py lines 81-89): embeds each
chunk in order and collects the (id, record) pairs; the first embedding
failure aborts the loop and propagates.  `embed` stands for
`EmbeddingGenerator.embed_text`, which the source calls but which is not
present in src/. -/
def embedAll {V E : Type} (hash : Str → Str) (embed : Str → Except E V) :
    List (Chunk ChunkMeta) → Except E (List (Str × StoreRecord V))
  | [] => .ok []
  | c :: cs =>
    match embed c.text with
    | .error e => .error e
    | .ok v => (embedAll hash embed cs).map (fun rest => (generate_id hash c, mkRecord c v) :: rest)

/-- `ChromaDBStore.upsert` (vector_store.py lines 68-103): every embedding is
generated before the single bulk collection write, and any error raised
while embedding is logged and re-raised, leaving the collection untouched. -/
def store_upsert {V E : Type} (hash : Str → Str) (embed : Str → Except E V)
    (col : List (Str × StoreRecord V)) (chunks : List (Chunk ChunkMeta)) :
    Except E (List (Str × StoreRecord V)) :=
  (embedAll hash embed chunks).map (fun entries => collection_upsert col entries)

/-- Formatted query hit: the `{'text': ..., 'metadata': ...}` dict built in
vector_store.py lines 126-132. -/
structure QueryResult where
  text : Str
  filename : Str
  chunk_index : Nat
  chunk_size : Nat
deriving DecidableEq, Repr

/-- Modelled from the spec: `collection.query` (ChromaDB, external to src/)
ranks every stored entry by descending cosine similarity to the query
vector and returns the first `k`; when fewer than `k` entries exist it
returns all of them.  `sim` stands for the cosine similarity. -/
def collection_query {V : Type} (sim : V → V → Rat) (col : List (Str × StoreRecord V))
    (qv : V) (k : Nat) : List (StoreRecord V) :=
  (((col.map Prod.snd).insertionSort
      (fun a b => sim qv b.embedding ≤ sim qv a.embedding)).take k)

/-- `ChromaDBStore.query` (vector_store.py lines 105-138): embed the question
(a call that may itself fail), query the collection, and format each hit as
text plus metadata. -/
def store_query {V E : Type} (embed : Str → Except E V) (sim : V → V → Rat)
    (col : List (Str × StoreRecord V)) (question : Str) (k : Nat) :
    Except E (List QueryResult) :=
  match embed question with
  | .error e => .error e
  | .ok qv =>
    .ok ((collection_query sim col qv k).map
      (fun r => ⟨r.document, r.filename, r.chunk_index, r.chunk_size⟩))

/-! Embedding generator construction (`pdf2vector/core/embeddings.py`). -/

/-- `EmbeddingGenerator.__init__` (embeddings.py lines 27-47): the effective
key is `api_key or os.getenv("OPENAI_API_KEY")` under Python falsiness
(`None` and the empty string are falsy), and a falsy effective key raises
`ValueError` at construction time, before any embedding call. -/
def embeddingGeneratorInit (api_key env_key : Option String) : Except String String :=
  let key := match api_key with
    | some s => if s.isEmpty then env_key else some s
    | none => env_key
  match key with
  | some s =>
    if s.isEmpty then
      .error "OpenAI API key not found. Set OPENAI_API_KEY environment variable."
    else .ok s
  | none => .error "OpenAI API key not found. Set OPENAI_API_KEY environment variable."

/-! Helper lemmas about cleaning and splitting. -/

theorem mem_collapseWsAux {c : Char} :
    ∀ (b : Bool) (s : Str), c ∈ collapseWsAux b s → pyIsSpace c = true → c = ' ' := by
  intro b s
  induction s generalizing b with
  | nil => intro h _; simp [collapseWsAux] at h
  | cons d rest ih =>
    intro h hc
    simp only [collapseWsAux] at h
    by_cases hd : pyIsSpace d = true
    · rw [if_pos hd] at h
      cases b with
      | true => exact ih true h hc
      | false =>
        rcases List.mem_cons.mp h with h1 | h2
        · exact h1
        · exact ih true h2 hc
    · rw [if_neg hd] at h
      rcases List.mem_cons.mp h with h1 | h2
      · subst h1; exact absurd hc hd
      · exact ih false h2 hc

theorem nl_not_mem_collapseWs (s : Str) : '\n' ∉ collapseWs s := by
  intro h
  have h2 := mem_collapseWsAux false s h (by decide)
  exact absurd h2 (by decide)

theorem pyStrip_eq_rdropWhile (s : Str) :
    pyStrip s = List.rdropWhile pyIsSpace (List.dropWhile pyIsSpace s) := rfl

theorem mem_pyStrip {c : Char} {s : Str} (h : c ∈ pyStrip s) : c ∈ s := by
  rw [pyStrip_eq_rdropWhile] at h
  have h1 := (List.rdropWhile_prefix pyIsSpace (List.dropWhile pyIsSpace s)).sublist.subset h
  exact (List.dropWhile_sublist pyIsSpace).subset h1

theorem nl_not_mem_clean_text (t : Str) : '\n' ∉ clean_text t := by
  intro h
  exact nl_not_mem_collapseWs _ (mem_pyStrip h)

theorem dropWhile_pyStrip (s : Str) :
    List.dropWhile pyIsSpace (pyStrip s) = pyStrip s := by
  rw [pyStrip_eq_rdropWhile]
  rcases h : List.rdropWhile pyIsSpace (List.dropWhile pyIsSpace s) with _ | ⟨a, ys⟩
  · rfl
  · obtain ⟨tl, ht⟩ := List.rdropWhile_prefix pyIsSpace (List.dropWhile pyIsSpace s)
    rw [h] at ht
    have h1 : List.dropWhile pyIsSpace ((a :: ys) ++ tl) = (a :: ys) ++ tl := by
      rw [ht]; exact List.dropWhile_idempotent pyIsSpace s
    have ha : ¬(pyIsSpace a = true) := by
      intro ha
      rw [List.cons_append, List.dropWhile_cons, if_pos ha] at h1
      have hlen := congrArg List.length h1
      have hle := (List.dropWhile_sublist (l := ys ++ tl) pyIsSpace).length_le
      simp at hlen hle
      omega
    rw [List.dropWhile_cons, if_neg ha]

theorem pyStrip_idem (s : Str) : pyStrip (pyStrip s) = pyStrip s := by
  rw [pyStrip_eq_rdropWhile (pyStrip s), dropWhile_pyStrip, pyStrip_eq_rdropWhile s]
  exact List.rdropWhile_idempotent pyIsSpace (List.dropWhile pyIsSpace s)

theorem splitHeadAux_no_nl :
    ∀ (s : Str), '\n' ∉ s → ∀ acc, splitHeadAux acc s = [acc.reverse ++ s] := by
  intro s
  induction s with
  | nil => intro _ acc; simp [splitHeadAux]
  | cons c rest ih =>
    intro hnl acc
    have hc : ¬(c = '\n') := fun h => hnl (h ▸ List.mem_cons_self c rest)
    simp only [splitHeadAux]
    rw [if_neg (by simp [hc]), ih (fun h => hnl (List.mem_cons_of_mem c h)) (c :: acc)]
    simp

theorem split_by_headings_no_nl (s : Str) (hnl : '\n' ∉ s) (hstrip : pyStrip s = s) :
    split_by_headings s = if s.isEmpty then [] else [s] := by
  unfold split_by_headings
  rw [splitHeadAux_no_nl s hnl []]
  by_cases hH : isHeadingStart s = true <;>
    rcases s with _ | ⟨c, cs⟩ <;>
      simp_all [List.filter, pyStrip]

theorem splitParaAux_no_nl :
    ∀ (s : Str) (fuel : Nat) (acc : Str), s.length ≤ fuel → '\n' ∉ s →
      splitParaAux fuel acc s = [acc.reverse ++ s] := by
  intro s
  induction s with
  | nil => intro fuel acc _ _; cases fuel <;> simp [splitParaAux]
  | cons c rest ih =>
    intro fuel acc hf hnl
    cases fuel with
    | zero => simp at hf
    | succ f =>
      have hc : ¬(c = '\n') := fun h => hnl (h ▸ List.mem_cons_self c rest)
      simp only [splitParaAux]
      rw [if_neg hc, ih f (c :: acc) (by simpa using hf) (fun h => hnl (List.mem_cons_of_mem c h))]
      simp

theorem split_by_paragraphs_no_nl (s : Str) (hnl : '\n' ∉ s) (hstrip : pyStrip s = s) :
    split_by_paragraphs s = if s.isEmpty then [] else [s] := by
  unfold split_by_paragraphs
  rw [splitParaAux_no_nl s s.length [] (Nat.le_refl _) hnl]
  rcases s with _ | ⟨c, cs⟩ <;> simp_all [List.filter, pyStrip]

theorem merge_small_chunks_singleton (maxSize : Nat) (x : Str) (hx : x.isEmpty = false) :
    merge_small_chunks maxSize [x] = [x] := by
  unfold merge_small_chunks
  simp only [mergeSmallAux]
  by_cases h : List.length ([] : Str) + x.length ≤ maxSize
  · rw [if_pos h]; simp [hx]
  · rw [if_neg h]; simp [hx]

theorem chunk_text_eq_single {M : Type} (minSize maxSize : Nat) (t : Str) (m : M) :
    chunk_text minSize maxSize t m =
      if (clean_text t).isEmpty then []
      else [⟨clean_text t, m, 0, (clean_text t).length⟩] := by
  have hnl : '\n' ∉ clean_text t := nl_not_mem_clean_text t
  have hstrip : pyStrip (clean_text t) = clean_text t :=
    pyStrip_idem (collapseWs (removeURLs (removeImages (removeFences (removePageNums t)))))
  unfold chunk_text
  rw [split_by_headings_no_nl _ hnl hstrip, split_by_paragraphs_no_nl _ hnl hstrip]
  rcases hu : clean_text t with _ | ⟨c, cs⟩
  · simp [merge_small_chunks, mergeSmallAux, attachMeta]
  · have hne : ((c :: cs : Str)).isEmpty = false := rfl
    simp only [List.isEmpty_cons, Bool.false_eq_true, if_false]
    rw [ite_self, merge_small_chunks_singleton _ _ hne]
    rfl

theorem mergeSmallAux_cons_le (maxSize : Nat) (current c : Str) (cs : List Str)
    (h : current.length + c.length ≤ maxSize) :
    mergeSmallAux maxSize current (c :: cs) =
      mergeSmallAux maxSize (if current.isEmpty then c else current ++ '\n' :: '\n' :: c) cs := by
  simp only [mergeSmallAux]
  rw [if_pos h]

theorem mergeSmallAux_cons_flush (maxSize : Nat) (current c : Str) (cs : List Str)
    (h : ¬(current.length + c.length ≤ maxSize)) (hc : current.isEmpty = false) :
    mergeSmallAux maxSize current (c :: cs) = current :: mergeSmallAux maxSize c cs := by
  simp only [mergeSmallAux]
  rw [if_neg h, if_neg (by simp [hc])]

/-! Claim theorems for the chunking component. -/

/-- C1: for every input text, `chunk_text` returns exactly one `Chunk`,
holding the whole cleaned text with `chunk_index` 0 and `chunk_size` its
length, whenever the cleaned text is non-empty (even when it is longer than
`maxSize`), and returns the empty list when the cleaned text is empty:
cleaning collapses every newline into a space, after which neither the
heading pattern nor the blank-line pattern can divide the text. -/
theorem chunk_text_single_chunk {M : Type} (minSize maxSize : Nat) (t : Str) (m : M) :
    chunk_text minSize maxSize t m =
      if (clean_text t).isEmpty then []
      else [⟨clean_text t, m, 0, (clean_text t).length⟩] :=
  chunk_text_eq_single minSize maxSize t m

/-- C2 (code bug): on the spec's example document `split_by_headings`
returns three fragments, splitting at the `## B` subheading as well,
because the lookahead pattern matches one-or-more hash marks; the claim and
the repository's own `test_split_by_headings` expect two fragments with the
subheading kept inside the first. -/
theorem split_by_headings_example_three_fragments :
    split_by_headings ("# A\n\ntext1\n\n## B\n\ntext2\n\n# C\n\ntext3".data) =
      ["# A\n\ntext1".data, "## B\n\ntext2".data, "# C\n\ntext3".data] := by
  decide

/-- C3 (code bug): cleaning the spec's example keeps the substring
"Page 1": the page-number pattern removes only lines that are entirely
numeric, and the line containing "Page 1" is not.  The claim and the
repository's own `test_clean_text` require "Page 1" to be gone from the
cleaned text. -/
theorem clean_text_example_keeps_page_marker :
    clean_text ("\n  Page 1  \n\n# Heading 1\n\nSome text with a URL: https://example.com\n\n![Image](image.png)\n".data) =
      "Page 1 # Heading 1 Some text with a URL:".data ∧
    "Page 1".data <:+:
      clean_text ("\n  Page 1  \n\n# Heading 1\n\nSome text with a URL: https://example.com\n\n![Image](image.png)\n".data) := by
  exact ⟨by decide, by decide⟩

/-- C4 counterexample: the empty document cleans to the empty string, whose
length is below the default `min_chunk_size` of 100, yet `chunk_text`
returns no chunk at all rather than exactly one. -/
theorem chunk_text_short_counterexample :
    (clean_text ([] : Str)).length < 100 ∧
      chunk_text 100 1000 ([] : Str) () = ([] : List (Chunk Unit)) :=
  ⟨by decide, by decide⟩

/-- C4 (amended): every text whose cleaned form is non-empty and shorter
than `minSize` is returned by `chunk_text` as exactly one chunk holding the
cleaned text. -/
theorem chunk_text_short_single {M : Type} (minSize maxSize : Nat) (t : Str) (m : M)
    (hne : (clean_text t).isEmpty = false) (hshort : (clean_text t).length < minSize) :
    chunk_text minSize maxSize t m = [⟨clean_text t, m, 0, (clean_text t).length⟩] := by
  rw [chunk_text_eq_single, if_neg (by simp [hne])]

/-- C4 witness: the repository's own small example text. -/
theorem chunk_text_short_single_witness :
    (clean_text ("This is a small piece of text.".data)).isEmpty = false ∧
    (clean_text ("This is a small piece of text.".data)).length < 100 ∧
    chunk_text 100 1000 ("This is a small piece of text.".data) () =
      [⟨clean_text ("This is a small piece of text.".data), (), 0,
        (clean_text ("This is a small piece of text.".data)).length⟩] :=
  ⟨by decide, by decide, chunk_text_short_single 100 1000 _ () (by decide) (by decide)⟩

/-- C5: `chunk_text` uses an all-or-nothing fallback: exactly when some
heading fragment of the cleaned text is shorter than `minSize`, the whole
heading split is discarded and the entire cleaned text is re-split by
paragraphs before merging; otherwise the heading split itself is merged —
never a per-fragment mix of the two strategies. -/
theorem chunk_text_all_or_nothing_fallback {M : Type} (minSize maxSize : Nat) (t : Str) (m : M) :
    ((split_by_headings (clean_text t)).any (fun c => c.length < minSize) = true →
      chunk_text minSize maxSize t m =
        attachMeta m (merge_small_chunks maxSize (split_by_paragraphs (clean_text t)))) ∧
    ((split_by_headings (clean_text t)).any (fun c => c.length < minSize) = false →
      chunk_text minSize maxSize t m =
        attachMeta m (merge_small_chunks maxSize (split_by_headings (clean_text t)))) := by
  constructor <;> intro h <;> simp only [chunk_text, h] <;> simp

/-- C5 witness: on a short heading-free document the paragraph fallback
branch is taken. -/
theorem chunk_text_all_or_nothing_fallback_witness :
    chunk_text 100 1000 ("tiny".data) () =
      attachMeta () (merge_small_chunks 1000 (split_by_paragraphs (clean_text ("tiny".data)))) :=
  (chunk_text_all_or_nothing_fallback 100 1000 ("tiny".data) ()).1 (by decide)

/-- C6: merging `["a", "b", L, "c", "d"]` with a maximum chunk size of at
least 2 but below the length of `L` yields exactly three chunks: `a` and
`b` merged, `L` alone, and `c` and `d` merged. -/
theorem merge_small_chunks_scenario (L : Str) (m : Nat) (h2 : 2 ≤ m) (hL : m < L.length) :
    merge_small_chunks m ["a".data, "b".data, L, "c".data, "d".data] =
      ["a\n\nb".data, L, "c\n\nd".data] := by
  have la : ("a".data : Str).length = 1 := rfl
  have lb : ("b".data : Str).length = 1 := rfl
  have lc : ("c".data : Str).length = 1 := rfl
  have ld : ("d".data : Str).length = 1 := rfl
  have lab : ("a\n\nb".data : Str).length = 4 := rfl
  have hLne : L.isEmpty = false := by
    cases L with
    | nil => exact absurd hL (by simp)
    | cons x xs => rfl
  unfold merge_small_chunks
  rw [mergeSmallAux_cons_le m [] ("a".data) _ (by simp only [List.length_nil, la]; omega)]
  show mergeSmallAux m ("a".data) ["b".data, L, "c".data, "d".data] = _
  rw [mergeSmallAux_cons_le m ("a".data) ("b".data) _ (by rw [la, lb]; omega)]
  show mergeSmallAux m ("a\n\nb".data) [L, "c".data, "d".data] = _
  rw [mergeSmallAux_cons_flush m ("a\n\nb".data) L _ (by rw [lab]; omega) (by decide)]
  rw [mergeSmallAux_cons_flush m L ("c".data) _ (by rw [lc]; omega) hLne]
  rw [mergeSmallAux_cons_le m ("c".data) ("d".data) _ (by rw [lc, ld]; omega)]
  rfl

/-- C6 witness: the spec's long example chunk with maximum size 10. -/
theorem merge_small_chunks_scenario_witness :
    merge_small_chunks 10
        ["a".data, "b".data, "long-enough-chunk-that-exceeds-threshold-alone".data,
          "c".data, "d".data] =
      ["a\n\nb".data, "long-enough-chunk-that-exceeds-threshold-alone".data, "c\n\nd".data] :=
  merge_small_chunks_scenario _ 10 (by decide) (by decide)

/-! Helper lemmas about the store model. -/

theorem collection_upsert_one_idem {V : Type} (col : List (Str × StoreRecord V))
    (id : Str) (r : StoreRecord V) :
    collection_upsert_one (collection_upsert_one col id r) id r =
      collection_upsert_one col id r := by
  unfold collection_upsert_one
  by_cases h : col.any (fun p => p.1 = id) = true
  · rw [if_pos h]
    have h2 : (col.map (fun p => if p.1 = id then (id, r) else p)).any
        (fun p => p.1 = id) = true := by
      rcases List.any_eq_true.mp h with ⟨x, hx, hxid⟩
      refine List.any_eq_true.mpr ⟨(id, r), List.mem_map.mpr ⟨x, hx, ?_⟩, by simp⟩
      simp only [decide_eq_true_eq] at hxid
      simp [hxid]
    rw [if_pos h2, List.map_map]
    refine List.map_congr_left ?_
    intro p _
    by_cases hp : p.1 = id <;> simp [Function.comp, hp]
  · rw [if_neg h]
    have h2 : ((col ++ [(id, r)]).any (fun p => p.1 = id)) = true :=
      List.any_eq_true.mpr ⟨(id, r), by simp, by simp⟩
    rw [if_pos h2, List.map_append]
    have h4 := List.any_eq_false.mp (Bool.not_eq_true _ ▸ h)
    have h3 : col.map (fun p => if p.1 = id then (id, r) else p) = col := by
      conv_rhs => rw [← List.map_id col]
      refine List.map_congr_left ?_
      intro p hp
      rw [if_neg (by simpa using h4 p hp)]
      rfl
    rw [h3]
    simp

theorem countP_key_eq_one {V : Type} (col : List (Str × StoreRecord V)) (id : Str)
    (hnd : (col.map Prod.fst).Nodup) (h : col.any (fun p => p.1 = id) = true) :
    col.countP (fun p => p.1 = id) = 1 := by
  induction col with
  | nil => simp at h
  | cons q rest ih =>
    simp only [List.map_cons, List.nodup_cons] at hnd
    by_cases hq : q.1 = id
    · rw [List.countP_cons_of_pos _ _ (by simpa using hq)]
      have hz : rest.countP (fun p => p.1 = id) = 0 := by
        rw [List.countP_eq_zero]
        intro a ha
        simp only [decide_eq_true_eq]
        intro haid
        exact hnd.1 (by rw [hq, ← haid]; exact List.mem_map_of_mem Prod.fst ha)
      omega
    · rw [List.countP_cons_of_neg _ _ (by simpa using hq)]
      refine ih hnd.2 ?_
      rcases List.any_eq_true.mp h with ⟨x, hx, hxid⟩
      rcases List.mem_cons.mp hx with rfl | hx2
      · exact absurd (by simpa using hxid) hq
      · exact List.any_eq_true.mpr ⟨x, hx2, hxid⟩

theorem store_upsert_singleton {V E : Type} (hash : Str → Str) (embed : Str → Except E V)
    (c : Chunk ChunkMeta) (v : V) (col : List (Str × StoreRecord V))
    (hv : embed c.text = .ok v) :
    store_upsert hash embed col [c] =
      .ok (collection_upsert_one col (generate_id hash c) (mkRecord c v)) := by
  simp [store_upsert, embedAll, hv, collection_upsert, Except.map]

/-! Claim theorems for the vector store and the embedding generator. -/

/-- C7: upsert is idempotent: writing a chunk and then writing the identical
chunk again leaves the store exactly as after the first write, and the
store then holds exactly one entry under the chunk's content-addressed id
(the hash of text ++ filename ++ chunk_index), the later write overwriting
the earlier.  The store is assumed to satisfy ChromaDB's invariant of
pairwise-distinct ids. -/
theorem upsert_idempotent {V E : Type} (hash : Str → Str) (embed : Str → Except E V)
    (c : Chunk ChunkMeta) (v : V) (col col1 : List (Str × StoreRecord V))
    (hv : embed c.text = .ok v) (hnd : (col.map Prod.fst).Nodup)
    (h1 : store_upsert hash embed col [c] = .ok col1) :
    store_upsert hash embed col1 [c] = .ok col1 ∧
      col1.countP (fun p => p.1 = generate_id hash c) = 1 := by
  rw [store_upsert_singleton hash embed c v col hv] at h1
  have hcol1 : collection_upsert_one col (generate_id hash c) (mkRecord c v) = col1 := by
    simpa using h1
  subst hcol1
  constructor
  · rw [store_upsert_singleton hash embed c v _ hv, collection_upsert_one_idem]
  · unfold collection_upsert_one
    by_cases h : col.any (fun p => p.1 = generate_id hash c) = true
    · rw [if_pos h, List.countP_map]
      have hcomp : ((fun p => decide (p.1 = generate_id hash c)) ∘
          (fun p => if p.1 = generate_id hash c
            then (generate_id hash c, mkRecord c v) else p)) =
          fun p => decide (p.1 = generate_id hash c) := by
        funext p
        by_cases hp : p.1 = generate_id hash c <;> simp [Function.comp, hp]
      rw [hcomp]
      exact countP_key_eq_one col _ hnd h
    · rw [if_neg h, List.countP_append]
      have hz : col.countP (fun p => p.1 = generate_id hash c) = 0 := by
        rw [List.countP_eq_zero]
        intro a ha
        have h5 := List.any_eq_false.mp (Bool.not_eq_true _ ▸ h) a ha
        exact fun hcontra => h5 (by simp [hcontra])
      simp [hz]

/-- C7 witness: a store already holding the entry, written with a constant
digest function and a constant embedder. -/
theorem upsert_idempotent_witness :
    store_upsert (fun _ => "k".data) (fun _ => (Except.ok 7 : Except Unit Nat))
        [("k".data, ⟨"hi".data, "doc.pdf".data, 0, 2, 7⟩)]
        [⟨"hi".data, ⟨"doc.pdf".data⟩, 0, 2⟩] =
      Except.ok [("k".data, ⟨"hi".data, "doc.pdf".data, 0, 2, 7⟩)] ∧
    List.countP
        (fun p => p.1 = generate_id (fun _ => "k".data) ⟨"hi".data, ⟨"doc.pdf".data⟩, 0, 2⟩)
        [("k".data, (⟨"hi".data, "doc.pdf".data, 0, 2, 7⟩ : StoreRecord Nat))] = 1 :=
  upsert_idempotent (fun _ => "k".data) (fun _ => (Except.ok 7 : Except Unit Nat))
    ⟨"hi".data, ⟨"doc.pdf".data⟩, 0, 2⟩ 7 [] [("k".data, ⟨"hi".data, "doc.pdf".data, 0, 2, 7⟩)]
    rfl (by simp) (by rfl)

/-- C8: querying an empty index returns the empty result sequence and no
error, for every question text and every k (whenever embedding the question
itself succeeds, which is the only other effect on the query path). -/
theorem query_empty_index {V E : Type} (embed : Str → Except E V) (sim : V → V → Rat)
    (question : Str) (k : Nat) (v : V) (hq : embed question = .ok v) :
    store_query embed sim ([] : List (Str × StoreRecord V)) question k = .ok [] := by
  simp [store_query, hq, collection_query, List.insertionSort]

/-- C8 witness: a concrete empty store with k = 5. -/
theorem query_empty_index_witness :
    store_query (fun _ => (Except.ok 0 : Except Unit Nat)) (fun _ _ => 0)
      ([] : List (Str × StoreRecord Nat)) ("What is this about?".data) 5 = .ok [] :=
  query_empty_index _ _ _ 5 0 rfl

/-- C9: constructing the embedding generator with no api_key argument and no
credential in the environment fails immediately at construction time with
the ValueError message of embeddings.py line 36, rather than deferring the
failure to the first embedding call. -/
theorem embedding_init_missing_key_fails :
    embeddingGeneratorInit none none =
      .error "OpenAI API key not found. Set OPENAI_API_KEY environment variable." := rfl

/-- C10: upsert is atomic with respect to embedding failures: when any chunk
of the batch fails to embed, `store_upsert` surfaces an error and performs
no collection write — the single bulk write happens only after every
embedding of the batch has succeeded. -/
theorem upsert_aborts_on_embedding_failure {V E : Type} (hash : Str → Str)
    (embed : Str → Except E V) (col : List (Str × StoreRecord V))
    (chunks : List (Chunk ChunkMeta))
    (h : ∃ c ∈ chunks, ∃ e, embed c.text = .error e) :
    ∃ e, store_upsert hash embed col chunks = .error e := by
  suffices h2 : ∃ e2, embedAll (V := V) hash embed chunks = .error e2 by
    obtain ⟨e2, he2⟩ := h2
    exact ⟨e2, by simp [store_upsert, he2, Except.map]⟩
  obtain ⟨c, hc, e, he⟩ := h
  revert hc
  induction chunks with
  | nil => intro hc; simp at hc
  | cons d rest ih =>
    intro hc
    rcases List.mem_cons.mp hc with h0 | hc2
    · exact ⟨e, by simp [embedAll, h0 ▸ he]⟩
    · cases hd : embed d.text with
      | error e3 => exact ⟨e3, by simp [embedAll, hd]⟩
      | ok v =>
        obtain ⟨e2, he2⟩ := ih hc2
        exact ⟨e2, by simp [embedAll, hd, he2, Except.map]⟩

/-- C10 witness: a two-chunk batch whose second chunk fails to embed. -/
theorem upsert_aborts_on_embedding_failure_witness :
    ∃ e, store_upsert (fun _ => "k".data)
        (fun s => if s = "bad".data then (Except.error 0 : Except Nat Nat) else .ok 1)
        ([] : List (Str × StoreRecord Nat))
        [⟨"good".data, ⟨"f".data⟩, 0, 4⟩, ⟨"bad".data, ⟨"f".data⟩, 1, 3⟩] = .error e :=
  upsert_aborts_on_embedding_failure _ _ _ _
    ⟨⟨"bad".data, ⟨"f".data⟩, 1, 3⟩, by simp, 0, by rfl⟩

end Pdf2Vector
